import Mathlib

/-!
Verification of the ledctl repository (Go): a WS281x / LPD8806 LED strip
driver for the Raspberry Pi.  The Go source is shallowly embedded below:
pure computations become Lean functions on `Nat` / `Int` / `List`, the
pixel and symbol buffers become `List Nat` (each element a byte resp. a
32-bit word), and Go panics / returned errors become explicit `Option` /
`Except` values.  Out-of-range slice accesses panic in Go; where a theorem
only exercises in-range accesses the embedding uses a total access with
default 0 and the theorem carries the in-range hypotheses that hold by
construction in the source.  Definitions come first, theorems follow.
-/

namespace Ledctl

/-! ## Buffer sizing (`pwmByteCount`, src/unnamed/part_001 lines 104-133) -/

/-- Embeds the constant `ledReset_us = 55` (microseconds of reset gap). -/
def ledReset_us : Nat := 55

/-- Modelled from the spec: `rpi.RPI_PWM_CHANNELS`, the number of hardware
PWM output channels, is declared in a file of the `rpi` package that is not
part of the provided sources; the spec (and the channel loop `c < 2` in
`Flush`) fixes it at two channels, both driven from the same buffer. -/
def RPI_PWM_CHANNELS : Nat := 2

/-- Embeds `(*WS281x).pwmByteCount(freq uint) uint`.  The receiver fields
`ws.numColors` and `ws.numPixels` are passed explicitly.  Go unsigned
integer division is truncating, which `Nat` division matches. -/
def pwmByteCount (numColors numPixels freq : Nat) : Nat :=
  -- bits := uint(3 * ws.numColors * ws.numPixels * 8)
  let bits := 3 * numColors * numPixels * 8
  -- bits += ((ledReset_us * (freq * 3)) / 1000000)
  let bits := bits + ledReset_us * (freq * 3) / 1000000
  -- bytes := bits / 8
  let bytes := bits / 8
  -- bytes -= bytes % 4 ; bytes += 4
  let bytes := bytes - bytes % 4
  let bytes := bytes + 4
  -- bytes *= rpi.RPI_PWM_CHANNELS
  bytes * RPI_PWM_CHANNELS

/-- The byte count as claim C3 words it: data bits plus a reset gap of
`ceil(55 * freq * 3 / 1000000)` bits, converted to (whole, occupied) bytes,
rounded up to the next multiple of 4, with one extra 4-byte word of margin,
then multiplied by the number of hardware PWM channels. -/
def pwmByteCountClaim (numColors numPixels freq : Nat) : Nat :=
  let dataBits := 3 * numColors * numPixels * 8
  let resetBits := (ledReset_us * (freq * 3) + 999999) / 1000000
  let bytes := (dataBits + resetBits + 7) / 8
  let aligned := (bytes + 3) / 4 * 4
  (aligned + 4) * RPI_PWM_CHANNELS

/-- The byte count as the code actually computes it, restated arithmetically:
reset bits by truncating (floor) division, bits-to-bytes by truncating
division, and the result is the smallest multiple of 4 strictly greater than
that byte count (round down to a word boundary, then add one 4-byte word),
times the channel count. -/
def pwmByteCountAmended (numColors numPixels freq : Nat) : Nat :=
  let dataBits := 3 * numColors * numPixels * 8
  let resetBits := ledReset_us * (freq * 3) / 1000000
  let bytes := (dataBits + resetBits) / 8
  (4 * (bytes / 4) + 4) * RPI_PWM_CHANNELS

/-! ## Color orders, color models and pixel values (src/ledctl.go) -/

/-- Embeds the `ColorOrder` enumeration (the current version of
src/ledctl.go, including `GRBWOrder`). -/
inductive ColorOrder
  | GRBOrder
  | BRGOrder
  | BGROrder
  | GBROrder
  | RGBOrder
  | RBGOrder
  | GRBWOrder
deriving DecidableEq, Repr

/-- Embeds the `offsets` map: for each order, the byte offsets of the
green, red, blue and white channels inside one pixel; `-1` marks white as
absent for the three-channel orders (indexing with it panics in Go, and the
accessors that use it require a four-channel configuration). -/
def offsets : ColorOrder → List Int
  | .GRBOrder => [0, 1, 2, -1]
  | .BRGOrder => [2, 1, 0, -1]
  | .BGROrder => [1, 2, 0, -1]
  | .GBROrder => [0, 2, 1, -1]
  | .RGBOrder => [1, 0, 2, -1]
  | .RBGOrder => [2, 0, 1, -1]
  | .GRBWOrder => [0, 1, 2, 3]

/-- Embeds the `ColorModel` enumeration. -/
inductive ColorModel
  | RGBWModel
  | RGBModel
deriving DecidableEq, Repr

/-- Embeds `ColorModel.NumColors` (the `default: return 0` branch of the Go
switch is unreachable for the two declared enum values). -/
def ColorModel.NumColors : ColorModel → Nat
  | .RGBWModel => 4
  | .RGBModel => 3

/-- Embeds the `RGBW` pixel value (four byte components). -/
structure RGBW where
  R : Nat
  G : Nat
  B : Nat
  W : Nat
deriving DecidableEq, Repr

/-- Embeds the `RGB` pixel value (three byte components). -/
structure RGB where
  R : Nat
  G : Nat
  B : Nat
deriving DecidableEq, Repr

/-! ## Byte-buffer access helpers -/

/-- Reads a byte of a pixel buffer at a (possibly channel-offset) index.
Go panics on an out-of-range index; theorems below only exercise in-range
reads, where this total model agrees with the source. -/
def getPix (l : List Nat) (i : Int) : Nat :=
  if 0 ≤ i then l.getD i.toNat 0 else 0

/-- Writes a byte of a pixel buffer; same in-range proviso as `getPix`. -/
def setPix (l : List Nat) (i : Int) (v : Nat) : List Nat :=
  if 0 ≤ i then l.set i.toNat v else l

/-- Bounds-checked write used by the bulk-setter loops, where an
out-of-range index must be observed as a Go runtime panic. -/
def setPixChecked (l : List Nat) (i : Int) (v : Nat) : Option (List Nat) :=
  if 0 ≤ i ∧ i.toNat < l.length then some (l.set i.toNat v) else none

/-- A Go panic: either an explicit `panic("...")` (the contract violations
of the bulk setters) or a runtime index-out-of-range panic. -/
inductive GoPanic
  | contractViolation (msg : String)
  | indexOutOfRange
deriving DecidableEq, Repr

/-! ## WS281x driver state (src/unnamed/part_001) -/

/-- Modelled from the spec: the `rpi.RPi` handle as seen by the WS281x
driver.  `WaitForDMAEnd` and `StartDMA` live in `rpi` package files that are
not part of the provided sources; per spec section 4.5 the wait blocks and
can fail (its outcome is the `waitErr` field), and `StartDMA` arms a new
transfer (recorded by `dmaArmed`). -/
structure RPiState where
  waitErr : Option String
  dmaArmed : Bool
deriving DecidableEq, Repr

/-- Embeds the `WS281x` struct (the `pixDMA` pointer is represented by the
word slice `pixDMAUint` it backs). -/
structure WS281x where
  pixDMAUint : List Nat
  rp : RPiState
  pixels : List Nat
  numPixels : Nat
  numColors : Nat
  g : Int
  r : Int
  b : Int
  w : Int
deriving DecidableEq, Repr

/-- Embeds `(*WS281x).RGBWAt`. -/
def WS281x.RGBWAt (ws : WS281x) (i : Nat) : RGBW :=
  let o : Int := (i : Int) * (ws.numColors : Int)
  ⟨getPix ws.pixels (o + ws.r), getPix ws.pixels (o + ws.g),
   getPix ws.pixels (o + ws.b), getPix ws.pixels (o + ws.w)⟩

/-- Embeds `(*WS281x).SetRGBWAt` (one `let` per Go assignment). -/
def WS281x.SetRGBWAt (ws : WS281x) (i : Nat) (rgbw : RGBW) : WS281x :=
  let o : Int := (i : Int) * (ws.numColors : Int)
  let px := setPix ws.pixels (o + ws.r) rgbw.R
  let px := setPix px (o + ws.g) rgbw.G
  let px := setPix px (o + ws.b) rgbw.B
  let px := setPix px (o + ws.w) rgbw.W
  { ws with pixels := px }

/-- Embeds `(*WS281x).RGBAt`. -/
def WS281x.RGBAt (ws : WS281x) (i : Nat) : RGB :=
  let o : Int := (i : Int) * (ws.numColors : Int)
  ⟨getPix ws.pixels (o + ws.r), getPix ws.pixels (o + ws.g),
   getPix ws.pixels (o + ws.b)⟩

/-- Embeds `(*WS281x).SetRGBAt` (one `let` per Go assignment). -/
def WS281x.SetRGBAt (ws : WS281x) (i : Nat) (rgb : RGB) : WS281x :=
  let o : Int := (i : Int) * (ws.numColors : Int)
  let px := setPix ws.pixels (o + ws.r) rgb.R
  let px := setPix px (o + ws.g) rgb.G
  let px := setPix px (o + ws.b) rgb.B
  { ws with pixels := px }

/-- Embeds the loop of `(*WS281x).SetRGBWs`:
`a := 0; for i := 0; i < len(ws.pixels); i += 4 { pixels buffer writes at
a+offset from input element i; a++ }`.  Note the source reads the input
slice at index `i` (which advances by 4) and writes the pixel buffer at
`a + offset` (where `a` advances by 1).  The `fuel` argument only bounds
the recursion; the loop condition `i < len(buf)` is checked each round, and
the caller passes enough fuel for the loop to run to completion, so the
model computes exactly what the Go loop does.  A failed slice access ends
the loop with the partially-written buffer and an index panic, as in Go. -/
def setRGBWsLoop (rOff gOff bOff wOff : Int) (input : List RGBW) :
    Nat → Nat → Nat → List Nat → List Nat × Option GoPanic
  | 0, _, _, buf => (buf, none)
  | fuel + 1, i, a, buf =>
    if i < buf.length then
      match input[i]? with
      | none => (buf, some .indexOutOfRange)
      | some p =>
        match setPixChecked buf ((a : Int) + rOff) p.R with
        | none => (buf, some .indexOutOfRange)
        | some buf =>
          match setPixChecked buf ((a : Int) + gOff) p.G with
          | none => (buf, some .indexOutOfRange)
          | some buf =>
            match setPixChecked buf ((a : Int) + bOff) p.B with
            | none => (buf, some .indexOutOfRange)
            | some buf =>
              match setPixChecked buf ((a : Int) + wOff) p.W with
              | none => (buf, some .indexOutOfRange)
              | some buf => setRGBWsLoop rOff gOff bOff wOff input fuel (i + 4) (a + 1) buf
    else (buf, none)

/-- Embeds `(*WS281x).SetRGBWs` (src/unnamed/part_001 lines 170-186):
two contract checks (wrong color model, then wrong input length) each
`panic`, i.e. a `ContractViolation`, before any buffer write; otherwise the
copy loop runs. -/
def WS281x.SetRGBWs (ws : WS281x) (input : List RGBW) : WS281x × Option GoPanic :=
  if ws.numColors ≠ 4 then
    (ws, some (.contractViolation "SetRGBWs called on WS281x with numColors != 4"))
  else if input.length ≠ ws.numPixels then
    (ws, some (.contractViolation "SetRGBWs called with wrong number of pixels"))
  else
    let r := setRGBWsLoop ws.r ws.g ws.b ws.w input (ws.pixels.length / 4 + 2) 0 0 ws.pixels
    ({ ws with pixels := r.1 }, r.2)

/-- Embeds the loop of `(*WS281x).SetRGBs`:
`a := 0; for i := 0; i < len(ws.pixels); i += 3 { pixel buffer writes at
i+offset from input element a; a++ }` (this loop, unlike the RGBW one,
indexes the buffer with `i` and the input with `a`). -/
def setRGBsLoop (rOff gOff bOff : Int) (input : List RGB) :
    Nat → Nat → Nat → List Nat → List Nat × Option GoPanic
  | 0, _, _, buf => (buf, none)
  | fuel + 1, i, a, buf =>
    if i < buf.length then
      match input[a]? with
      | none => (buf, some .indexOutOfRange)
      | some p =>
        match setPixChecked buf ((i : Int) + rOff) p.R with
        | none => (buf, some .indexOutOfRange)
        | some buf =>
          match setPixChecked buf ((i : Int) + gOff) p.G with
          | none => (buf, some .indexOutOfRange)
          | some buf =>
            match setPixChecked buf ((i : Int) + bOff) p.B with
            | none => (buf, some .indexOutOfRange)
            | some buf => setRGBsLoop rOff gOff bOff input fuel (i + 3) (a + 1) buf
    else (buf, none)

/-- Embeds `(*WS281x).SetRGBs` (src/unnamed/part_001 lines 206-222). -/
def WS281x.SetRGBs (ws : WS281x) (input : List RGB) : WS281x × Option GoPanic :=
  if ws.numColors ≠ 3 then
    (ws, some (.contractViolation "SetRGBs called on RGBW strip"))
  else if input.length ≠ ws.numPixels then
    (ws, some (.contractViolation "SetRGBs called with wrong number of pixels"))
  else
    let r := setRGBsLoop ws.r ws.g ws.b input (ws.pixels.length / 3 + 2) 0 0 ws.pixels
    ({ ws with pixels := r.1 }, r.2)

/-! ## LPD8806 driver state (src/unnamed/part_000) -/

/-- Embeds the `LPD8806` struct (the SPI device and the trailing reset
bytes of `buffer` play no part in the accessor claims and are omitted;
`pixels` is the pixel-data window). -/
structure LPD8806 where
  pixels : List Nat
  numColors : Nat
  numPixels : Nat
  g : Int
  r : Int
  b : Int
  w : Int
deriving DecidableEq, Repr

/-- Embeds `(*LPD8806).RGBAt`: each component is read masked with `0x7F`. -/
def LPD8806.RGBAt (la : LPD8806) (i : Nat) : RGB :=
  let o : Int := (i : Int) * (la.numColors : Int)
  ⟨getPix la.pixels (o + la.r) &&& 0x7F, getPix la.pixels (o + la.g) &&& 0x7F,
   getPix la.pixels (o + la.b) &&& 0x7F⟩

/-- Embeds `(*LPD8806).SetRGBAt`: each component is stored with the high
bit forced (`0x80 | v`). -/
def LPD8806.SetRGBAt (la : LPD8806) (i : Nat) (rgb : RGB) : LPD8806 :=
  let o : Int := (i : Int) * (la.numColors : Int)
  let px := setPix la.pixels (o + la.r) (0x80 ||| rgb.R)
  let px := setPix px (o + la.g) (0x80 ||| rgb.G)
  let px := setPix px (o + la.b) (0x80 ||| rgb.B)
  { la with pixels := px }

/-- Embeds `(*LPD8806).RGBWAt`. -/
def LPD8806.RGBWAt (la : LPD8806) (i : Nat) : RGBW :=
  let o : Int := (i : Int) * (la.numColors : Int)
  ⟨getPix la.pixels (o + la.r) &&& 0x7F, getPix la.pixels (o + la.g) &&& 0x7F,
   getPix la.pixels (o + la.b) &&& 0x7F, getPix la.pixels (o + la.w) &&& 0x7F⟩

/-- Embeds `(*LPD8806).SetRGBWAt`. -/
def LPD8806.SetRGBWAt (la : LPD8806) (i : Nat) (rgbw : RGBW) : LPD8806 :=
  let o : Int := (i : Int) * (la.numColors : Int)
  let px := setPix la.pixels (o + la.r) (0x80 ||| rgbw.R)
  let px := setPix px (o + la.g) (0x80 ||| rgbw.G)
  let px := setPix px (o + la.b) (0x80 ||| rgbw.B)
  let px := setPix px (o + la.w) (0x80 ||| rgbw.W)
  { la with pixels := px }

/-- A WS281x state with the channel offsets of the given color order, as
`NewWS281x` assigns them (`g,r,b,w := offsets[0..3]`), over an arbitrary
current pixel buffer and RPi state. -/
def wsOf (order : ColorOrder) (numPixels numColors : Nat) (pix : List Nat)
    (rp : RPiState) (dma : List Nat) : WS281x :=
  let ofs := offsets order
  { pixDMAUint := dma, rp := rp, pixels := pix,
    numPixels := numPixels, numColors := numColors,
    g := ofs.getD 0 0, r := ofs.getD 1 0, b := ofs.getD 2 0, w := ofs.getD 3 0 }

/-- An LPD8806 state with the channel offsets of the given color order, as
`NewLPD8806` assigns them. -/
def laOf (order : ColorOrder) (numPixels numColors : Nat) (pix : List Nat) : LPD8806 :=
  let ofs := offsets order
  { pixels := pix, numColors := numColors, numPixels := numPixels,
    g := ofs.getD 0 0, r := ofs.getD 1 0, b := ofs.getD 2 0, w := ofs.getD 3 0 }

end Ledctl

namespace Rpi

/-! ## Hardware detection (src/rpi/rpi.go) -/

def RPI_HWVER_TYPE_UNKNOWN : Nat := 0
def RPI_HWVER_TYPE_PI1 : Nat := 1
def RPI_HWVER_TYPE_PI2 : Nat := 2
def RPI_HWVER_TYPE_PI4 : Nat := 3
def PERIPH_BASE_RPI : Nat := 0x20000000
def PERIPH_BASE_RPI2 : Nat := 0x3f000000
def PERIPH_BASE_RPI4 : Nat := 0xfe000000
def VIDEOCORE_BASE_RPI : Nat := 0x40000000
def VIDEOCORE_BASE_RPI2 : Nat := 0xc0000000

/-- Embeds the `hw` record of src/rpi/rpi.go.  Go strings are modelled as
`List Char`. -/
structure Hw where
  hwType : Nat
  periphBase : Nat
  vcBase : Nat
  name : List Char
deriving DecidableEq, Repr

/-- Embeds the static `rasPiVariants` catalog (src/rpi/rpi.go lines 95-150),
in its declared (pre-sort) order. -/
def rasPiVariants : List Hw :=
  [ ⟨RPI_HWVER_TYPE_PI1, PERIPH_BASE_RPI, VIDEOCORE_BASE_RPI,
      "Raspberry Pi Model B".toList⟩,
    ⟨RPI_HWVER_TYPE_PI1, PERIPH_BASE_RPI, VIDEOCORE_BASE_RPI,
      "Raspberry Pi Compute Module".toList⟩,
    ⟨RPI_HWVER_TYPE_PI1, PERIPH_BASE_RPI, VIDEOCORE_BASE_RPI,
      "Raspberry Pi Zero W".toList⟩,
    ⟨RPI_HWVER_TYPE_PI2, PERIPH_BASE_RPI2, VIDEOCORE_BASE_RPI2,
      "Raspberry Pi 2 Model B".toList⟩,
    ⟨RPI_HWVER_TYPE_PI2, PERIPH_BASE_RPI2, VIDEOCORE_BASE_RPI2,
      "Raspberry Pi Compute Module 3".toList⟩,
    ⟨RPI_HWVER_TYPE_PI2, PERIPH_BASE_RPI2, VIDEOCORE_BASE_RPI2,
      "Raspberry Pi Compute Module 3 Plus".toList⟩,
    ⟨RPI_HWVER_TYPE_PI2, PERIPH_BASE_RPI2, VIDEOCORE_BASE_RPI2,
      "Raspberry Pi 3 Model B".toList⟩,
    ⟨RPI_HWVER_TYPE_PI2, PERIPH_BASE_RPI2, VIDEOCORE_BASE_RPI2,
      "Raspberry Pi 3 Model B Plus".toList⟩,
    ⟨RPI_HWVER_TYPE_PI4, PERIPH_BASE_RPI4, VIDEOCORE_BASE_RPI2,
      "Raspberry Pi 4 Model B".toList⟩ ]

/-- Embeds the comparator of the one-time `sort.Slice` call in
`detectHardware`: longer names first; among equal lengths, lower videocore
base first. -/
def variantLess (a b : Hw) : Bool :=
  if a.name.length = b.name.length then decide (a.vcBase < b.vcBase)
  else decide (b.name.length < a.name.length)

/-- Insertion step of the catalog sort. -/
def insertVariant (x : Hw) : List Hw → List Hw
  | [] => [x]
  | y :: t => if variantLess x y then x :: y :: t else y :: insertVariant x t

/-- The one-time catalog sort.  Go `sort.Slice` is an unstable comparison
sort; it is modelled by insertion sort over the same comparator.  The only
comparator ties in the catalog are between names of equal length that are
not prefixes of one another, so every order `sort.Slice` may produce yields
the same result for the scan below. -/
def sortVariants : List Hw → List Hw
  | [] => []
  | x :: t => insertVariant x (sortVariants t)

/-- The sorted catalog used by `detectHardware`. -/
def sortedVariants : List Hw := sortVariants rasPiVariants

/-- Recursion kernel for the Go `strings.HasPrefix` test, structural on the
pattern. -/
def hasPreAux : List Char → List Char → Bool
  | [], _ => true
  | _ :: _, [] => false
  | p :: ps, c :: cs => decide (p = c) && hasPreAux ps cs

/-- Embeds `strings.HasPrefix(s, pat)`: `pat` begins the string `s`. -/
def hasPre (s pat : List Char) : Bool := hasPreAux pat s

/-- Embeds `detectHardware` (src/rpi/rpi.go lines 66-90) applied to the
contents of `/proc/device-tree/model` (passed in as `model`; the file-read
failure path is outside this model).  Scans the sorted catalog and returns
the first variant whose name begins the model string; an unmatched model
string is the `DetectionError` case, carrying the model text as the Go
error message does. -/
def detectHardware (model : List Char) : Except (List Char) Hw :=
  match sortedVariants.find? (fun rp => hasPre model rp.name) with
  | some rp => .ok rp
  | none => .error model

end Rpi

namespace Ledctl

/-! ## WS281x symbol encoding (`Flush`, src/unnamed/part_001 lines 224-265) -/

def symbolHigh : Nat := 0x6
def symbolLow : Nat := 0x4

/-- All 32 bits set; Go complements `1 << bitPos` inside `uint32`. -/
def mask32 : Nat := 2 ^ 32 - 1

/-- One inner-loop body iteration of the encoder:
`pixDMAUint[rpPos] &= ^(1 << bitPos); if symbol bit set { pixDMAUint[rpPos]
|= 1 << bitPos }`. -/
def setWordBit (words : List Nat) (p bp : Nat) (b : Bool) : List Nat :=
  let w := words.getD p 0
  let w := w &&& (mask32 ^^^ (1 <<< bp))
  let w := if b then w ||| (1 <<< bp) else w
  words.set p w

/-- Encoder cursor: the destination word list plus the `rpPos`/`bitPos`
loop variables.  `bitPos` counts 31 down to 0; the source decrements past 0
into a signed `-1` and immediately resets, which the `bitPos = 0` test
below reproduces. -/
structure EncSt where
  words : List Nat
  rpPos : Nat
  bitPos : Nat
deriving Repr

/-- Writes one PWM bit at the cursor and advances it: `bitPos--` and, on
underflow, `rpPos += 2; bitPos = 31` (the two hardware channels interleave
in alternating 32-bit words). -/
def writeBit (st : EncSt) (b : Bool) : EncSt :=
  let ws := setWordBit st.words st.rpPos st.bitPos b
  if st.bitPos = 0 then ⟨ws, st.rpPos + 2, 31⟩
  else ⟨ws, st.rpPos, st.bitPos - 1⟩

/-- The 3 bits of a symbol in emission order `l = 2, 1, 0`. -/
def symbolBits (sym : Nat) : List Bool :=
  [sym.testBit 2, sym.testBit 1, sym.testBit 0]

/-- The 24 PWM bits one byte contributes: for data bit `k = 7` down to `0`
(the source loop variable runs downward; here `k` runs over `range 8` and
the bit index is `7 - k`), the 3 bits of `symbolHigh` (`0b110`) for a set
data bit or `symbolLow` (`0b100`) for a clear one — exactly the two inner
loops (`k`, `l`) of `Flush`. -/
def byteEnc (x : Nat) : List Bool :=
  (List.range 8).flatMap fun k =>
    symbolBits (if x &&& (1 <<< (7 - k)) ≠ 0 then symbolHigh else symbolLow)

/-- The PWM bit stream one channel emits: for each pixel `i` and color `j`,
the 24-bit encoding of byte `pixels[i*numColors+j]`.  This is the exact
visiting order of the nested `Flush` loops. -/
def channelStream (numColors numPixels : Nat) (pixels : List Nat) : List Bool :=
  (List.range numPixels).flatMap fun i =>
    (List.range numColors).flatMap fun j =>
      byteEnc (pixels.getD (i * numColors + j) 0)

/-- One outer-loop round of `Flush`: encode the whole stream for channel
`c`, starting at word `rpPos = c`, bit 31. -/
def encodeChannel (numColors numPixels : Nat) (pixels : List Nat) (c : Nat)
    (words : List Nat) : List Nat :=
  ((channelStream numColors numPixels pixels).foldl writeBit ⟨words, c, 31⟩).words

/-- Embeds `(*WS281x).Flush`: wait for the in-flight DMA transfer (modelled
by `rp.waitErr`; on failure the wrapped error is returned and nothing else
happens), then re-encode both channels into the symbol buffer and arm a new
DMA transfer.  The returned pair carries the driver state at exit and the
returned error, if any. -/
def WS281x.Flush (ws : WS281x) : WS281x × Option String :=
  match ws.rp.waitErr with
  | some e => (ws, some ("pre-DMA wait failed: " ++ e))
  | none =>
    let w0 := encodeChannel ws.numColors ws.numPixels ws.pixels 0 ws.pixDMAUint
    let w1 := encodeChannel ws.numColors ws.numPixels ws.pixels 1 w0
    ({ ws with pixDMAUint := w1, rp := { ws.rp with dmaArmed := true } }, none)

/-! ## Decoding the symbol stream (claim C1 and C2 vocabulary): channel 0
occupies the even-indexed 32-bit words; PWM bit `t` of a channel is bit
`31 - t % 32` of its word number `t / 32`; consecutive 3-bit groups decode
`0b110` to a set data bit and `0b100` to a clear one. -/

/-- PWM bit `t` of channel `c` in the symbol buffer. -/
def chanBit (words : List Nat) (c t : Nat) : Bool :=
  (words.getD (c + 2 * (t / 32)) 0).testBit (31 - t % 32)

/-- Decodes one 3-bit symbol group. -/
def decodeSym (b2 b1 b0 : Bool) : Option Bool :=
  match b2, b1, b0 with
  | true, true, false => some true
  | true, false, false => some false
  | _, _, _ => none

/-- Decodes data bit `j` of channel 0 from its 3-bit group. -/
def decodeBit (words : List Nat) (j : Nat) : Option Bool :=
  decodeSym (chanBit words 0 (3 * j)) (chanBit words 0 (3 * j + 1))
    (chanBit words 0 (3 * j + 2))

/-- Decodes byte `n` of channel 0, most-significant data bit first. -/
def decodeByteAt (words : List Nat) (n : Nat) : Option Nat :=
  (decodeBit words (8 * n)).bind fun b7 =>
  (decodeBit words (8 * n + 1)).bind fun b6 =>
  (decodeBit words (8 * n + 2)).bind fun b5 =>
  (decodeBit words (8 * n + 3)).bind fun b4 =>
  (decodeBit words (8 * n + 4)).bind fun b3 =>
  (decodeBit words (8 * n + 5)).bind fun b2 =>
  (decodeBit words (8 * n + 6)).bind fun b1 =>
  (decodeBit words (8 * n + 7)).bind fun b0 =>
  some (cond b7 128 0 + cond b6 64 0 + cond b5 32 0 + cond b4 16 0 +
        cond b3 8 0 + cond b2 4 0 + cond b1 2 0 + cond b0 1 0)

/-! ## Construction cleanup (`NewWS281x`, src/unnamed/part_001 lines 47-91) -/

/-- Modelled from the spec: the outcomes of the `rpi` lifecycle calls made
by `NewWS281x` (`rpi.NewRPi`, `GetDMABuf`, `InitDMA`, `InitGPIO`,
`InitPWM`, `FreeDMABuf`), whose implementations are in `rpi` package files
not among the provided sources.  Each field is `none` for success or the
error the call fails with (spec sections 4.3 and 4.5). -/
structure RpiEnv where
  newRPiErr : Option String
  getDMABufErr : Option String
  initDMAErr : Option String
  initGPIOErr : Option String
  initPWMErr : Option String
  freeDMABufErr : Option String
deriving DecidableEq, Repr

/-- The error `NewWS281x` returns, one constructor per `fmt.Errorf` wrap
site, carrying the wrapped underlying error. -/
inductive WSInitError
  | rpiInit (e : String)
  | dmaBuf (e : String)
  | initRegisters (e : String)
  | gpioInit (e : String)
  | initPWM (e : String)
deriving DecidableEq, Repr

/-- Modelled from the spec: `rp.FreeDMABuf` releases the DMA buffer and may
itself fail; `NewWS281x` calls it with `// Ignore error`.  Returns the fact
that the release happened together with the discarded error. -/
def FreeDMABuf (env : RpiEnv) : Bool × Option String := (true, env.freeDMABufErr)

/-- Embeds the control flow of `NewWS281x` (src/unnamed/part_001 lines
47-91) over the call outcomes in `env`.  Result: the returned error (or
success), whether the DMA buffer allocation had succeeded, and whether the
buffer was released by a cleanup call. -/
def NewWS281x (env : RpiEnv) : Except WSInitError Unit × Bool × Bool :=
  match env.newRPiErr with
  | some e => (.error (.rpiInit e), false, false)
  | none =>
    match env.getDMABufErr with
    | some e => (.error (.dmaBuf e), false, false)
    | none =>
      match env.initDMAErr with
      | some e => (.error (.initRegisters e), true, (FreeDMABuf env).1)
      | none =>
        match env.initGPIOErr with
        | some e => (.error (.gpioInit e), true, (FreeDMABuf env).1)
        | none =>
          match env.initPWMErr with
          | some e => (.error (.initPWM e), true, (FreeDMABuf env).1)
          | none => (.ok (), true, false)

/-- The end-to-end scenario driver of claim C2: 10 pixels, 3-channel RGB
color model, GRB order, PWM frequency 800000.  The symbol buffer is the
(zero-initialized) word list of the size `NewWS281x` allocates
(`pwmByteCount` bytes, i.e. that many 32-bit words divided by 4), and
pixel 0 is set to RGB (255, 0, 0). -/
def scenarioWS : WS281x :=
  (wsOf .GRBOrder 10 ColorModel.RGBModel.NumColors
    (List.replicate (10 * ColorModel.RGBModel.NumColors) 0) ⟨none, false⟩
    (List.replicate (pwmByteCount ColorModel.RGBModel.NumColors 10 800000 / 4) 0)).SetRGBAt
    0 ⟨255, 0, 0⟩

end Ledctl

/-! # Theorems -/

namespace Ledctl

/-- Claim C3 counterexample: already at the reference configuration
(1 pixel, 3 colors, 800 kHz) the code returns 56 bytes while the formula of
the claim (ceiling reset bits, round the byte count up to a word boundary
and add one word of margin) gives 64 bytes, so the two disagree. -/
theorem pwmByteCount_spec_counterexample :
    pwmByteCount 3 1 800000 = 56 ∧ pwmByteCountClaim 3 1 800000 = 64 ∧
    pwmByteCount 3 1 800000 ≠ pwmByteCountClaim 3 1 800000 := by
  refine ⟨by decide, by decide, by decide⟩

/-- Claim C3 (amended): `pwmByteCount` equals the amended formula: data bits
`3*numColors*numPixels*8` plus `floor(55*freq*3/1000000)` reset bits,
truncating conversion to bytes, then the smallest multiple of 4 strictly
greater than the byte count, multiplied by the channel count (2). -/
theorem pwmByteCount_formula (numColors numPixels freq : Nat) :
    pwmByteCount numColors numPixels freq =
      pwmByteCountAmended numColors numPixels freq := by
  unfold pwmByteCount pwmByteCountAmended
  generalize (3 * numColors * numPixels * 8 + ledReset_us * (freq * 3) / 1000000) / 8 = B
  simp only [RPI_PWM_CHANNELS]
  omega

/-- Claim C10: `pwmByteCount` is monotonically non-decreasing in each of
`numPixels`, `numColors` and `freq` (stated jointly, which subsumes varying
one parameter at a time). -/
theorem pwmByteCount_monotone (nc nc' np np' f f' : Nat)
    (hnc : nc ≤ nc') (hnp : np ≤ np') (hf : f ≤ f') :
    pwmByteCount nc np f ≤ pwmByteCount nc' np' f' := by
  unfold pwmByteCount
  have hbits : 3 * nc * np * 8 + ledReset_us * (f * 3) / 1000000 ≤
      3 * nc' * np' * 8 + ledReset_us * (f' * 3) / 1000000 := by
    have h1 : 3 * nc * np * 8 ≤ 3 * nc' * np' * 8 :=
      Nat.mul_le_mul_right 8 (Nat.mul_le_mul (Nat.mul_le_mul_left 3 hnc) hnp)
    have h2 : ledReset_us * (f * 3) / 1000000 ≤ ledReset_us * (f' * 3) / 1000000 :=
      Nat.div_le_div_right (Nat.mul_le_mul_left _ (Nat.mul_le_mul_right 3 hf))
    exact Nat.add_le_add h1 h2
  have hB : (3 * nc * np * 8 + ledReset_us * (f * 3) / 1000000) / 8 ≤
      (3 * nc' * np' * 8 + ledReset_us * (f' * 3) / 1000000) / 8 :=
    Nat.div_le_div_right hbits
  dsimp only
  simp only [RPI_PWM_CHANNELS]
  generalize (3 * nc * np * 8 + ledReset_us * (f * 3) / 1000000) / 8 = B at hB ⊢
  generalize (3 * nc' * np' * 8 + ledReset_us * (f' * 3) / 1000000) / 8 = B' at hB ⊢
  omega

/-- Claim C10 witness: a concrete instance of the monotonicity theorem. -/
theorem pwmByteCount_monotone_witness :
    pwmByteCount 3 10 800000 ≤ pwmByteCount 4 12 1000000 :=
  pwmByteCount_monotone 3 4 10 12 800000 1000000 (by decide) (by decide) (by decide)

end Ledctl

namespace Rpi

theorem hasPre_append_self (a s : List Char) : hasPre (a ++ s) a = true := by
  induction a with
  | nil => rfl
  | cons c cs ih => simp [hasPre, hasPreAux] at ih ⊢; exact ih

theorem hasPre_eq_of_len (m a b : List Char) (ha : hasPre m a = true)
    (hb : hasPre m b = true) (h : a.length = b.length) : a = b := by
  induction m generalizing a b with
  | nil =>
    cases a with
    | nil => cases b with
      | nil => rfl
      | cons _ _ => simp at h
    | cons _ _ => simp [hasPre, hasPreAux] at ha
  | cons c cs ih =>
    cases a with
    | nil => cases b with
      | nil => rfl
      | cons _ _ => simp at h
    | cons p ps => cases b with
      | nil => simp at h
      | cons q qs =>
        simp only [hasPre, hasPreAux, Bool.and_eq_true, decide_eq_true_eq] at ha hb
        simp only [List.length_cons, Nat.succ_inj] at h
        rw [ha.1, hb.1, ih ps qs ha.2 hb.2 h]

/-- If `v` matches `m`, no strictly longer catalog name matches `m`, names
are unique, and the list is ordered with longer names first, then the scan
finds exactly `v`. -/
theorem find_first (l : List Hw) (m : List Char) (v : Hw)
    (hv : v ∈ l)
    (hord : l.Pairwise (fun a b => b.name.length ≤ a.name.length))
    (hnd : (l.map Hw.name).Nodup)
    (hmatch : hasPre m v.name = true)
    (hno : ∀ w ∈ l, v.name.length < w.name.length → hasPre m w.name = false) :
    l.find? (fun w => hasPre m w.name) = some v := by
  induction l with
  | nil => cases hv
  | cons w t ih =>
    rcases List.pairwise_cons.1 hord with ⟨hhead, htail⟩
    cases hw : hasPre m w.name with
    | true =>
      simp only [List.find?_cons, hw]
      rcases List.mem_cons.1 hv with hvw | hvt
      · rw [hvw]
      · exfalso
        have hle : v.name.length ≤ w.name.length := hhead v hvt
        have hne : ¬ v.name.length < w.name.length := by
          intro hlt
          exact absurd hw (by simp [hno w (List.mem_cons_self w t) hlt])
        have hlen : w.name.length = v.name.length := by omega
        have hname : w.name = v.name := hasPre_eq_of_len m _ _ hw hmatch hlen
        have : w.name ∈ t.map Hw.name := by
          rw [hname]; exact List.mem_map_of_mem Hw.name hvt
        exact (List.nodup_cons.1 hnd).1 this
    | false =>
      simp only [List.find?_cons, hw]
      have hvt : v ∈ t := by
        rcases List.mem_cons.1 hv with hvw | hvt
        · rw [hvw] at hmatch
          rw [hmatch] at hw
          cases hw
        · exact hvt
      exact ih hvt htail (List.nodup_cons.1 hnd).2
        (fun w' hw' h' => hno w' (List.mem_cons_of_mem _ hw') h')

/-- Claim C6 counterexample: "Raspberry Pi Compute Module" is a cataloged
variant name, yet that name followed by the suffix " 3" resolves to the
Compute Module 3 record (a different variant with a different peripheral
base), so a cataloged name plus an arbitrary suffix does not always resolve
to that variant. -/
theorem detectHardware_suffix_counterexample :
    (Hw.mk RPI_HWVER_TYPE_PI1 PERIPH_BASE_RPI VIDEOCORE_BASE_RPI
        "Raspberry Pi Compute Module".toList) ∈ rasPiVariants ∧
    detectHardware ("Raspberry Pi Compute Module".toList ++ " 3".toList) =
      .ok (Hw.mk RPI_HWVER_TYPE_PI2 PERIPH_BASE_RPI2 VIDEOCORE_BASE_RPI2
        "Raspberry Pi Compute Module 3".toList) ∧
    (Hw.mk RPI_HWVER_TYPE_PI2 PERIPH_BASE_RPI2 VIDEOCORE_BASE_RPI2
        "Raspberry Pi Compute Module 3".toList) ≠
      (Hw.mk RPI_HWVER_TYPE_PI1 PERIPH_BASE_RPI VIDEOCORE_BASE_RPI
        "Raspberry Pi Compute Module".toList) := by
  refine ⟨by decide, by rfl, by decide⟩

/-- Claim C6 (amended): a model string equal to a cataloged name `N`, or to
`N` plus a suffix, resolves to that variant provided no strictly longer
cataloged name begins the resulting model string (for the exact name this
proviso holds vacuously); a model string that no cataloged name begins
yields the detection error. -/
theorem detectHardware_matching :
    (∀ v ∈ rasPiVariants, ∀ s : List Char,
      (∀ w ∈ rasPiVariants, v.name.length < w.name.length →
        hasPre (v.name ++ s) w.name = false) →
      detectHardware (v.name ++ s) = .ok v) ∧
    (∀ m : List Char, (∀ w ∈ rasPiVariants, hasPre m w.name = false) →
      detectHardware m = .error m) := by
  have hperm : sortedVariants.Perm rasPiVariants := by decide
  constructor
  · intro v hv s hno
    unfold detectHardware
    rw [find_first sortedVariants (v.name ++ s) v (hperm.mem_iff.2 hv)
      (by decide) (by decide) (hasPre_append_self v.name s)
      (fun w hw h => hno w (hperm.mem_iff.1 hw) h)]
  · intro m hall
    unfold detectHardware
    rw [List.find?_eq_none.2 (fun w hw => by simp [hall w (hperm.mem_iff.1 hw)])]

/-- Claim C6 witness: the exact name "Raspberry Pi Zero W" (empty suffix)
resolves to its record, instantiating the amended theorem. -/
theorem detectHardware_matching_witness :
    detectHardware ("Raspberry Pi Zero W".toList ++ "".toList) =
      .ok (Hw.mk RPI_HWVER_TYPE_PI1 PERIPH_BASE_RPI VIDEOCORE_BASE_RPI
        "Raspberry Pi Zero W".toList) :=
  detectHardware_matching.1
    (Hw.mk RPI_HWVER_TYPE_PI1 PERIPH_BASE_RPI VIDEOCORE_BASE_RPI
      "Raspberry Pi Zero W".toList)
    (by decide) "".toList (by decide)

end Rpi

namespace Ledctl

/-- Claim C5: `SetRGBs` and `SetRGBWs` with a wrong-length input, or on a
driver whose configured channel count does not match the setter, signal a
`ContractViolation` panic and return with the driver state (in particular
every byte of the pixel buffer) unmodified. -/
theorem bulk_setter_contract (ws : WS281x) (in3 : List RGB) (in4 : List RGBW) :
    ((ws.numColors ≠ 3 ∨ in3.length ≠ ws.numPixels) →
      ∃ msg, ws.SetRGBs in3 = (ws, some (.contractViolation msg))) ∧
    ((ws.numColors ≠ 4 ∨ in4.length ≠ ws.numPixels) →
      ∃ msg, ws.SetRGBWs in4 = (ws, some (.contractViolation msg))) := by
  constructor
  · intro h
    unfold WS281x.SetRGBs
    split_ifs with h1 h2
    · exact ⟨_, rfl⟩
    · exact ⟨_, rfl⟩
    · rcases h with h | h
      · exact absurd h h1
      · exact absurd h h2
  · intro h
    unfold WS281x.SetRGBWs
    split_ifs with h1 h2
    · exact ⟨_, rfl⟩
    · exact ⟨_, rfl⟩
    · rcases h with h | h
      · exact absurd h h1
      · exact absurd h h2

/-- Claim C5 witness: a 2-pixel, 3-color driver rejects a length-1 bulk RGB
update and a (wrong-model) bulk RGBW update, leaving its buffer intact. -/
theorem bulk_setter_contract_witness :
    (∃ msg, (WS281x.mk [] ⟨none, false⟩ [9, 9, 9, 9, 9, 9] 2 3 0 1 2 (-1)).SetRGBs
      [⟨1, 2, 3⟩] = (WS281x.mk [] ⟨none, false⟩ [9, 9, 9, 9, 9, 9] 2 3 0 1 2 (-1),
        some (.contractViolation msg))) ∧
    (∃ msg, (WS281x.mk [] ⟨none, false⟩ [9, 9, 9, 9, 9, 9] 2 3 0 1 2 (-1)).SetRGBWs
      [⟨1, 2, 3, 4⟩, ⟨5, 6, 7, 8⟩] =
      (WS281x.mk [] ⟨none, false⟩ [9, 9, 9, 9, 9, 9] 2 3 0 1 2 (-1),
        some (.contractViolation msg))) :=
  ⟨(bulk_setter_contract (WS281x.mk [] ⟨none, false⟩ [9, 9, 9, 9, 9, 9] 2 3 0 1 2 (-1))
      [⟨1, 2, 3⟩] [⟨1, 2, 3, 4⟩, ⟨5, 6, 7, 8⟩]).1 (Or.inr (by decide)),
   (bulk_setter_contract (WS281x.mk [] ⟨none, false⟩ [9, 9, 9, 9, 9, 9] 2 3 0 1 2 (-1))
      [⟨1, 2, 3⟩] [⟨1, 2, 3, 4⟩, ⟨5, 6, 7, 8⟩]).2 (Or.inl (by decide))⟩

theorem getD_set_self (l : List Nat) (n v : Nat) (h : n < l.length) :
    (l.set n v).getD n 0 = v := by
  induction l generalizing n with
  | nil => simp at h
  | cons x t ih =>
    cases n with
    | zero => rfl
    | succ m =>
      simp only [List.set_cons_succ, List.getD_cons_succ]
      exact ih m (by simpa using h)

theorem getD_set_ne (l : List Nat) (n m v : Nat) (h : n ≠ m) :
    (l.set n v).getD m 0 = l.getD m 0 := by
  induction l generalizing n m with
  | nil => rfl
  | cons x t ih =>
    cases n with
    | zero =>
      cases m with
      | zero => exact absurd rfl h
      | succ k => simp [List.set_cons_zero, List.getD_cons_succ]
    | succ n' =>
      cases m with
      | zero => simp [List.set_cons_succ, List.getD_cons_zero]
      | succ k =>
        simp only [List.set_cons_succ, List.getD_cons_succ]
        exact ih n' k (by omega)

theorem length_setPix (l : List Nat) (j : Int) (v : Nat) :
    (setPix l j v).length = l.length := by
  unfold setPix
  split <;> simp

theorem getPix_setPix_self (l : List Nat) (j : Int) (v : Nat) (h0 : 0 ≤ j)
    (h : j.toNat < l.length) : getPix (setPix l j v) j = v := by
  unfold getPix setPix
  simp only [if_pos h0]
  exact getD_set_self l j.toNat v h

theorem getPix_setPix_ne (l : List Nat) (j j' : Int) (v : Nat) (h : j ≠ j') :
    getPix (setPix l j v) j' = getPix l j' := by
  unfold getPix setPix
  by_cases h0 : 0 ≤ j
  · by_cases h0' : 0 ≤ j'
    · simp only [if_pos h0, if_pos h0']
      exact getD_set_ne l j.toNat j'.toNat v (by omega)
    · simp only [if_pos h0, if_neg h0']
  · simp only [if_neg h0]

theorem off_bound (i np nc : Nat) (off : Int) (hi : i < np) (h0 : 0 ≤ off)
    (hlt : off < (nc : Int)) :
    0 ≤ (i : Int) * (nc : Int) + off ∧
      ((i : Int) * (nc : Int) + off).toNat < np * nc := by
  have hnn : (0 : Int) ≤ (i : Int) * (nc : Int) + off := by positivity
  refine ⟨hnn, ?_⟩
  have hcast : (i : Int) * (nc : Int) + off = ((i * nc + off.toNat : Nat) : Int) := by
    push_cast
    omega
  rw [hcast, Int.toNat_natCast]
  have hmul : (i + 1) * nc ≤ np * nc := Nat.mul_le_mul_right nc (by omega)
  rw [Nat.succ_mul] at hmul
  omega

/-- Generic single-pixel RGB round trip on the WS281x driver: with the
red/green/blue offsets non-negative, below the channel count and pairwise
distinct (true of all seven catalogued orders), writing a pixel and reading
it back returns the written value. -/
theorem ws_rgb_gen (ws : WS281x) (i : Nat) (v : RGB)
    (hg0 : 0 ≤ ws.g) (hr0 : 0 ≤ ws.r) (hb0 : 0 ≤ ws.b)
    (hglt : ws.g < (ws.numColors : Int)) (hrlt : ws.r < (ws.numColors : Int))
    (hblt : ws.b < (ws.numColors : Int))
    (hrg : ws.r ≠ ws.g) (hrb : ws.r ≠ ws.b) (hgb : ws.g ≠ ws.b)
    (hlen : ws.pixels.length = ws.numPixels * ws.numColors)
    (hi : i < ws.numPixels) :
    (ws.SetRGBAt i v).RGBAt i = v := by
  obtain ⟨hra, hrb'⟩ := off_bound i ws.numPixels ws.numColors ws.r hi hr0 hrlt
  obtain ⟨hga, hgb'⟩ := off_bound i ws.numPixels ws.numColors ws.g hi hg0 hglt
  obtain ⟨hba, hbb'⟩ := off_bound i ws.numPixels ws.numColors ws.b hi hb0 hblt
  cases v with
  | mk vR vG vB =>
    simp only [WS281x.SetRGBAt, WS281x.RGBAt, RGB.mk.injEq]
    refine ⟨?_, ?_, ?_⟩
    · rw [getPix_setPix_ne _ _ _ _ (by omega), getPix_setPix_ne _ _ _ _ (by omega),
        getPix_setPix_self _ _ _ hra (by rw [hlen]; exact hrb')]
    · rw [getPix_setPix_ne _ _ _ _ (by omega),
        getPix_setPix_self _ _ _ hga
          (by rw [length_setPix, hlen]; exact hgb')]
    · rw [getPix_setPix_self _ _ _ hba
        (by rw [length_setPix, length_setPix, hlen]; exact hbb')]

/-- Generic single-pixel RGBW round trip on the WS281x driver. -/
theorem ws_rgbw_gen (ws : WS281x) (i : Nat) (v : RGBW)
    (hg0 : 0 ≤ ws.g) (hr0 : 0 ≤ ws.r) (hb0 : 0 ≤ ws.b) (hw0 : 0 ≤ ws.w)
    (hglt : ws.g < (ws.numColors : Int)) (hrlt : ws.r < (ws.numColors : Int))
    (hblt : ws.b < (ws.numColors : Int)) (hwlt : ws.w < (ws.numColors : Int))
    (hrg : ws.r ≠ ws.g) (hrb : ws.r ≠ ws.b) (hrw : ws.r ≠ ws.w)
    (hgb : ws.g ≠ ws.b) (hgw : ws.g ≠ ws.w) (hbw : ws.b ≠ ws.w)
    (hlen : ws.pixels.length = ws.numPixels * ws.numColors)
    (hi : i < ws.numPixels) :
    (ws.SetRGBWAt i v).RGBWAt i = v := by
  obtain ⟨hra, hrb'⟩ := off_bound i ws.numPixels ws.numColors ws.r hi hr0 hrlt
  obtain ⟨hga, hgb'⟩ := off_bound i ws.numPixels ws.numColors ws.g hi hg0 hglt
  obtain ⟨hba, hbb'⟩ := off_bound i ws.numPixels ws.numColors ws.b hi hb0 hblt
  obtain ⟨hwa, hwb'⟩ := off_bound i ws.numPixels ws.numColors ws.w hi hw0 hwlt
  cases v with
  | mk vR vG vB vW =>
    simp only [WS281x.SetRGBWAt, WS281x.RGBWAt, RGBW.mk.injEq]
    refine ⟨?_, ?_, ?_, ?_⟩
    · rw [getPix_setPix_ne _ _ _ _ (by omega), getPix_setPix_ne _ _ _ _ (by omega),
        getPix_setPix_ne _ _ _ _ (by omega),
        getPix_setPix_self _ _ _ hra (by rw [hlen]; exact hrb')]
    · rw [getPix_setPix_ne _ _ _ _ (by omega), getPix_setPix_ne _ _ _ _ (by omega),
        getPix_setPix_self _ _ _ hga
          (by rw [length_setPix, hlen]; exact hgb')]
    · rw [getPix_setPix_ne _ _ _ _ (by omega),
        getPix_setPix_self _ _ _ hba
          (by rw [length_setPix, length_setPix, hlen]; exact hbb')]
    · rw [getPix_setPix_self _ _ _ hwa
        (by rw [length_setPix, length_setPix, length_setPix, hlen]; exact hwb')]

theorem or128_and127 (v : Nat) : (128 ||| v) &&& 127 = v &&& 127 := by
  apply Nat.eq_of_testBit_eq
  intro n
  rw [show (128 : Nat) = 2 ^ 7 by rfl, show (127 : Nat) = 2 ^ 7 - 1 by rfl]
  simp only [Nat.testBit_land, Nat.testBit_lor, Nat.testBit_two_pow,
    Nat.testBit_two_pow_sub_one]
  by_cases h : n < 7
  · have h2 : decide (7 = n) = false := by simp; omega
    have h3 : decide (n < 7) = true := by simp [h]
    rw [h2, h3]
    simp
  · have h3 : decide (n < 7) = false := by simp [h]
    rw [h3]
    simp

theorem and127_of_lt (v : Nat) (h : v < 128) : v &&& 127 = v := by
  rw [show (127 : Nat) = 2 ^ 7 - 1 by rfl, Nat.and_pow_two_sub_one_eq_mod]
  exact Nat.mod_eq_of_lt h

/-- Generic single-pixel RGB round trip on the LPD8806 driver: the value
read back is the written value masked to 7 bits per component (the setter
forces the high bit on and the getter masks it off). -/
theorem la_rgb_gen (la : LPD8806) (i : Nat) (v : RGB)
    (hg0 : 0 ≤ la.g) (hr0 : 0 ≤ la.r) (hb0 : 0 ≤ la.b)
    (hglt : la.g < (la.numColors : Int)) (hrlt : la.r < (la.numColors : Int))
    (hblt : la.b < (la.numColors : Int))
    (hrg : la.r ≠ la.g) (hrb : la.r ≠ la.b) (hgb : la.g ≠ la.b)
    (hlen : la.pixels.length = la.numPixels * la.numColors)
    (hi : i < la.numPixels) :
    (la.SetRGBAt i v).RGBAt i = ⟨v.R &&& 127, v.G &&& 127, v.B &&& 127⟩ := by
  obtain ⟨hra, hrb'⟩ := off_bound i la.numPixels la.numColors la.r hi hr0 hrlt
  obtain ⟨hga, hgb'⟩ := off_bound i la.numPixels la.numColors la.g hi hg0 hglt
  obtain ⟨hba, hbb'⟩ := off_bound i la.numPixels la.numColors la.b hi hb0 hblt
  cases v with
  | mk vR vG vB =>
    simp only [LPD8806.SetRGBAt, LPD8806.RGBAt, RGB.mk.injEq]
    refine ⟨?_, ?_, ?_⟩
    · rw [getPix_setPix_ne _ _ _ _ (by omega), getPix_setPix_ne _ _ _ _ (by omega),
        getPix_setPix_self _ _ _ hra (by rw [hlen]; exact hrb'), or128_and127]
    · rw [getPix_setPix_ne _ _ _ _ (by omega),
        getPix_setPix_self _ _ _ hga
          (by rw [length_setPix, hlen]; exact hgb'), or128_and127]
    · rw [getPix_setPix_self _ _ _ hba
        (by rw [length_setPix, length_setPix, hlen]; exact hbb'), or128_and127]

/-- Generic single-pixel RGBW round trip on the LPD8806 driver, masked to
7 bits per component. -/
theorem la_rgbw_gen (la : LPD8806) (i : Nat) (v : RGBW)
    (hg0 : 0 ≤ la.g) (hr0 : 0 ≤ la.r) (hb0 : 0 ≤ la.b) (hw0 : 0 ≤ la.w)
    (hglt : la.g < (la.numColors : Int)) (hrlt : la.r < (la.numColors : Int))
    (hblt : la.b < (la.numColors : Int)) (hwlt : la.w < (la.numColors : Int))
    (hrg : la.r ≠ la.g) (hrb : la.r ≠ la.b) (hrw : la.r ≠ la.w)
    (hgb : la.g ≠ la.b) (hgw : la.g ≠ la.w) (hbw : la.b ≠ la.w)
    (hlen : la.pixels.length = la.numPixels * la.numColors)
    (hi : i < la.numPixels) :
    (la.SetRGBWAt i v).RGBWAt i =
      ⟨v.R &&& 127, v.G &&& 127, v.B &&& 127, v.W &&& 127⟩ := by
  obtain ⟨hra, hrb'⟩ := off_bound i la.numPixels la.numColors la.r hi hr0 hrlt
  obtain ⟨hga, hgb'⟩ := off_bound i la.numPixels la.numColors la.g hi hg0 hglt
  obtain ⟨hba, hbb'⟩ := off_bound i la.numPixels la.numColors la.b hi hb0 hblt
  obtain ⟨hwa, hwb'⟩ := off_bound i la.numPixels la.numColors la.w hi hw0 hwlt
  cases v with
  | mk vR vG vB vW =>
    simp only [LPD8806.SetRGBWAt, LPD8806.RGBWAt, RGBW.mk.injEq]
    refine ⟨?_, ?_, ?_, ?_⟩
    · rw [getPix_setPix_ne _ _ _ _ (by omega), getPix_setPix_ne _ _ _ _ (by omega),
        getPix_setPix_ne _ _ _ _ (by omega),
        getPix_setPix_self _ _ _ hra (by rw [hlen]; exact hrb'), or128_and127]
    · rw [getPix_setPix_ne _ _ _ _ (by omega), getPix_setPix_ne _ _ _ _ (by omega),
        getPix_setPix_self _ _ _ hga
          (by rw [length_setPix, hlen]; exact hgb'), or128_and127]
    · rw [getPix_setPix_ne _ _ _ _ (by omega),
        getPix_setPix_self _ _ _ hba
          (by rw [length_setPix, length_setPix, hlen]; exact hbb'), or128_and127]
    · rw [getPix_setPix_self _ _ _ hwa
        (by rw [length_setPix, length_setPix, length_setPix, hlen]; exact hwb'),
        or128_and127]

/-- Claim C7 counterexample: on the LPD8806 driver (GRB order, 1 pixel),
writing red component 128 reads back as 0 — the 7-bit masking of this
driver breaks the round trip for component values of 0x80 and above, so the
round trip does not hold for every pixel value on both drivers. -/
theorem lpd8806_roundtrip_counterexample :
    ((laOf .GRBOrder 1 3 [0, 0, 0]).SetRGBAt 0 ⟨128, 0, 0⟩).RGBAt 0 = ⟨0, 0, 0⟩ ∧
    ((laOf .GRBOrder 1 3 [0, 0, 0]).SetRGBAt 0 ⟨128, 0, 0⟩).RGBAt 0 ≠ ⟨128, 0, 0⟩ := by
  refine ⟨by decide, by decide⟩

/-- Claim C7 (amended): for every supported color order, valid index and
pixel value, set-then-get through the generic accessors returns the same
logical value on the WS281x driver; on the LPD8806 driver it returns each
component masked to 7 bits (`v &&& 0x7F`), hence the original value exactly
when every component is below 0x80. -/
theorem color_order_roundtrip :
    (∀ (order : ColorOrder) (np i : Nat) (pix : List Nat) (rp : RPiState)
        (dma : List Nat) (v : RGB),
      i < np → pix.length = np * 3 →
      ((wsOf order np 3 pix rp dma).SetRGBAt i v).RGBAt i = v) ∧
    (∀ (np i : Nat) (pix : List Nat) (rp : RPiState) (dma : List Nat) (v : RGBW),
      i < np → pix.length = np * 4 →
      ((wsOf .GRBWOrder np 4 pix rp dma).SetRGBWAt i v).RGBWAt i = v) ∧
    (∀ (order : ColorOrder) (np i : Nat) (pix : List Nat) (v : RGB),
      i < np → pix.length = np * 3 →
      ((laOf order np 3 pix).SetRGBAt i v).RGBAt i =
        ⟨v.R &&& 127, v.G &&& 127, v.B &&& 127⟩ ∧
      (v.R < 128 → v.G < 128 → v.B < 128 →
        ((laOf order np 3 pix).SetRGBAt i v).RGBAt i = v)) ∧
    (∀ (np i : Nat) (pix : List Nat) (v : RGBW),
      i < np → pix.length = np * 4 →
      ((laOf .GRBWOrder np 4 pix).SetRGBWAt i v).RGBWAt i =
        ⟨v.R &&& 127, v.G &&& 127, v.B &&& 127, v.W &&& 127⟩ ∧
      (v.R < 128 → v.G < 128 → v.B < 128 → v.W < 128 →
        ((laOf .GRBWOrder np 4 pix).SetRGBWAt i v).RGBWAt i = v)) := by
  refine ⟨?_, ?_, ?_, ?_⟩
  · intro order np i pix rp dma v hi hlen
    refine ws_rgb_gen _ i v ?_ ?_ ?_ ?_ ?_ ?_ ?_ ?_ ?_ hlen hi <;>
      · simp only [wsOf]
        cases order <;> decide
  · intro np i pix rp dma v hi hlen
    refine ws_rgbw_gen _ i v ?_ ?_ ?_ ?_ ?_ ?_ ?_ ?_ ?_ ?_ ?_ ?_ ?_ ?_ hlen hi <;>
      · simp only [wsOf]
        decide
  · intro order np i pix v hi hlen
    have hm : ((laOf order np 3 pix).SetRGBAt i v).RGBAt i =
        ⟨v.R &&& 127, v.G &&& 127, v.B &&& 127⟩ := by
      refine la_rgb_gen _ i v ?_ ?_ ?_ ?_ ?_ ?_ ?_ ?_ ?_ hlen hi <;>
        · simp only [laOf]
          cases order <;> decide
    refine ⟨hm, ?_⟩
    intro hR hG hB
    rw [hm]
    cases v with
    | mk vR vG vB =>
      simp only [RGB.mk.injEq]
      exact ⟨and127_of_lt vR hR, and127_of_lt vG hG, and127_of_lt vB hB⟩
  · intro np i pix v hi hlen
    have hm : ((laOf .GRBWOrder np 4 pix).SetRGBWAt i v).RGBWAt i =
        ⟨v.R &&& 127, v.G &&& 127, v.B &&& 127, v.W &&& 127⟩ := by
      refine la_rgbw_gen _ i v ?_ ?_ ?_ ?_ ?_ ?_ ?_ ?_ ?_ ?_ ?_ ?_ ?_ ?_ hlen hi <;>
        · simp only [laOf]
          decide
    refine ⟨hm, ?_⟩
    intro hR hG hB hW
    rw [hm]
    cases v with
    | mk vR vG vB vW =>
      simp only [RGBW.mk.injEq]
      exact ⟨and127_of_lt vR hR, and127_of_lt vG hG, and127_of_lt vB hB,
        and127_of_lt vW hW⟩

/-- Claim C7 witness: a concrete instance — BRG order, one pixel, value
(10, 20, 30) — of the amended round-trip theorem. -/
theorem color_order_roundtrip_witness :
    ((wsOf .BRGOrder 1 3 [0, 0, 0] ⟨none, false⟩ []).SetRGBAt 0
      ⟨10, 20, 30⟩).RGBAt 0 = ⟨10, 20, 30⟩ :=
  color_order_roundtrip.1 .BRGOrder 1 0 [0, 0, 0] ⟨none, false⟩ []
    ⟨10, 20, 30⟩ (by decide) (by decide)

/-- Claim C8: `Flush` returns an error exactly when the pre-encoding DMA
wait fails; on that error it returns the wrapped wait error with the driver
state — in particular the symbol buffer, and the not-armed DMA — left
unmodified; on success the symbol buffer is the full re-encoding of both
channels from the current pixel buffer and a new DMA transfer is armed. -/
theorem flush_error_behavior (ws : WS281x) :
    (ws.Flush.2.isSome ↔ ws.rp.waitErr.isSome) ∧
    (∀ e, ws.rp.waitErr = some e →
      ws.Flush = (ws, some ("pre-DMA wait failed: " ++ e))) ∧
    (ws.rp.waitErr = none →
      ws.Flush.1.pixDMAUint =
        encodeChannel ws.numColors ws.numPixels ws.pixels 1
          (encodeChannel ws.numColors ws.numPixels ws.pixels 0 ws.pixDMAUint) ∧
      ws.Flush.1.rp.dmaArmed = true ∧ ws.Flush.1.pixels = ws.pixels ∧
      ws.Flush.2 = none) := by
  cases hw : ws.rp.waitErr <;> simp [WS281x.Flush, hw]

/-- Claim C8 witness: a driver whose DMA wait fails gets its wrapped error
back and is returned unmodified. -/
theorem flush_error_behavior_witness :
    (WS281x.mk [0, 0] ⟨some "wait timeout", false⟩ [7, 7, 7] 1 3 0 1 2 (-1)).Flush =
      (WS281x.mk [0, 0] ⟨some "wait timeout", false⟩ [7, 7, 7] 1 3 0 1 2 (-1),
        some ("pre-DMA wait failed: " ++ "wait timeout")) :=
  (flush_error_behavior
      (WS281x.mk [0, 0] ⟨some "wait timeout", false⟩ [7, 7, 7] 1 3 0 1 2 (-1))).2.1
    "wait timeout" rfl

/-- Claim C9: whenever `InitDMA`, `InitGPIO` or `InitPWM` fails after the
DMA buffer allocation succeeded, `NewWS281x` releases the buffer with a
best-effort `FreeDMABuf` call whose own error is discarded (the theorem
holds for every `freeDMABufErr`) and returns the wrapped original error;
no post-allocation failure path leaks the buffer. -/
theorem newWS281x_cleanup (env : RpiEnv) :
    (∀ e, env.newRPiErr = none → env.getDMABufErr = none →
      env.initDMAErr = some e →
      NewWS281x env = (.error (.initRegisters e), true, true)) ∧
    (∀ e, env.newRPiErr = none → env.getDMABufErr = none →
      env.initDMAErr = none → env.initGPIOErr = some e →
      NewWS281x env = (.error (.gpioInit e), true, true)) ∧
    (∀ e, env.newRPiErr = none → env.getDMABufErr = none →
      env.initDMAErr = none → env.initGPIOErr = none → env.initPWMErr = some e →
      NewWS281x env = (.error (.initPWM e), true, true)) ∧
    ((NewWS281x env).2.1 = true → (∃ err, (NewWS281x env).1 = .error err) →
      (NewWS281x env).2.2 = true) := by
  cases h1 : env.newRPiErr <;> cases h2 : env.getDMABufErr <;>
    cases h3 : env.initDMAErr <;> cases h4 : env.initGPIOErr <;>
    cases h5 : env.initPWMErr <;>
    simp [NewWS281x, FreeDMABuf, h1, h2, h3, h4, h5]

/-- Claim C9 witness: a failing `InitDMA` with a failing cleanup still
frees the buffer and returns the wrapped `InitDMA` error. -/
theorem newWS281x_cleanup_witness :
    NewWS281x ⟨none, none, some "dma fail", none, none, some "free fail"⟩ =
      (.error (.initRegisters "dma fail"), true, true) :=
  (newWS281x_cleanup ⟨none, none, some "dma fail", none, none, some "free fail"⟩).1
    "dma fail" rfl rfl rfl

/-- Claim C4 (the code is wrong here): on a 4-color driver with 2 pixels
and a correctly-sized 2-element input, `SetRGBWs` reads the input slice at
index 4 (the loop advances its buffer index `i` by 4 but uses it to index
the input slice, and writes through the slowly-advancing index `a`), which
is an out-of-range runtime panic, not the documented bulk update.  The
sibling `SetRGBs` loop indexes the two slices the other way around. -/
theorem setRGBWs_index_out_of_range :
    ((WS281x.mk [] ⟨none, false⟩ (List.replicate 8 0) 2 4 0 1 2 3).SetRGBWs
      [⟨1, 2, 3, 4⟩, ⟨5, 6, 7, 8⟩]).2 = some .indexOutOfRange := by
  decide

/-! ## Encoder correctness (claims C1 and C2) -/

theorem getD_append_left {α : Type} (l₁ l₂ : List α) (n : Nat) (d : α)
    (h : n < l₁.length) : (l₁ ++ l₂).getD n d = l₁.getD n d := by
  induction l₁ generalizing n with
  | nil => simp at h
  | cons x t ih =>
    cases n with
    | zero => rfl
    | succ m =>
      simp only [List.cons_append, List.getD_cons_succ]
      exact ih m (by simpa using h)

theorem getD_append_right {α : Type} (l₁ l₂ : List α) (n : Nat) (d : α)
    (h : l₁.length ≤ n) : (l₁ ++ l₂).getD n d = l₂.getD (n - l₁.length) d := by
  induction l₁ generalizing n with
  | nil => simp
  | cons x t ih =>
    cases n with
    | zero => simp at h
    | succ m =>
      simp only [List.cons_append, List.getD_cons_succ, List.length_cons]
      rw [ih m (by simpa using h)]
      congr 1
      omega

theorem length_flatMap_const {α β : Type} (l : List α) (g : α → List β) (K : Nat)
    (h : ∀ x ∈ l, (g x).length = K) : (l.flatMap g).length = l.length * K := by
  induction l with
  | nil => simp
  | cons x t ih =>
    simp only [List.flatMap_cons, List.length_append, List.length_cons]
    rw [h x (List.mem_cons_self x t), ih (fun y hy => h y (List.mem_cons_of_mem x hy)),
      Nat.succ_mul]
    omega

theorem getD_flatMap {α β : Type} (l : List α) (g : α → List β) (K : Nat) (d : β)
    (dα : α) (hK : ∀ x ∈ l, (g x).length = K) (n u : Nat) (hn : n < l.length)
    (hu : u < K) :
    (l.flatMap g).getD (K * n + u) d = (g (l.getD n dα)).getD u d := by
  induction l generalizing n with
  | nil => simp at hn
  | cons x t ih =>
    cases n with
    | zero =>
      simp only [List.flatMap_cons, Nat.mul_zero, Nat.zero_add, List.getD_cons_zero]
      exact getD_append_left _ _ u d (by rw [hK x (List.mem_cons_self x t)]; exact hu)
    | succ m =>
      simp only [List.flatMap_cons, List.getD_cons_succ]
      rw [Nat.mul_succ]
      have hx : (g x).length = K := hK x (List.mem_cons_self x t)
      rw [show K * m + K + u = (g x).length + (K * m + u) by omega]
      rw [getD_append_right _ _ _ d (by omega)]
      rw [show (g x).length + (K * m + u) - (g x).length = K * m + u by omega]
      exact ih (fun y hy => hK y (List.mem_cons_of_mem x hy)) m (by simpa using hn)

theorem getD_range (m n : Nat) (h : n < m) : (List.range m).getD n 0 = n := by
  rw [List.getD_eq_getElem?_getD, List.getElem?_range h]
  rfl

theorem getD_mem (l : List Nat) (n : Nat) (h : n < l.length) : l.getD n 0 ∈ l := by
  induction l generalizing n with
  | nil => simp at h
  | cons x t ih =>
    cases n with
    | zero => simp
    | succ m =>
      simp only [List.getD_cons_succ]
      exact List.mem_cons_of_mem x (ih m (by simpa using h))

theorem length_setWordBit (words : List Nat) (p bp : Nat) (b : Bool) :
    (setWordBit words p bp b).length = words.length := by
  unfold setWordBit
  simp

theorem getD_setWordBit_ne (words : List Nat) (p bp : Nat) (b : Bool) (q : Nat)
    (h : q ≠ p) : (setWordBit words p bp b).getD q 0 = words.getD q 0 := by
  unfold setWordBit
  exact getD_set_ne words p q _ (fun hh => h hh.symm)

theorem testBit_maskxor (bp n : Nat) :
    (mask32 ^^^ (1 <<< bp)).testBit n = (decide (n < 32) ^^ decide (bp = n)) := by
  rw [Nat.testBit_xor, Nat.one_shiftLeft, Nat.testBit_two_pow]
  unfold mask32
  rw [Nat.testBit_two_pow_sub_one]

theorem testBit_setWordBit_self (words : List Nat) (p bp : Nat) (b : Bool)
    (hp : p < words.length) (hbp : bp < 32) :
    ((setWordBit words p bp b).getD p 0).testBit bp = b := by
  unfold setWordBit
  rw [getD_set_self _ _ _ hp]
  have hx : (mask32 ^^^ (1 <<< bp)).testBit bp = false := by
    rw [testBit_maskxor]
    simp [hbp]
  cases b with
  | false => simp [Nat.testBit_land, hx]
  | true =>
    simp [Nat.testBit_lor, Nat.testBit_land, hx, Nat.one_shiftLeft,
      Nat.testBit_two_pow]

theorem testBit_setWordBit_other (words : List Nat) (p bp : Nat) (b : Bool)
    (n : Nat) (hp : p < words.length) (hn : n < 32) (hne : n ≠ bp) :
    ((setWordBit words p bp b).getD p 0).testBit n = (words.getD p 0).testBit n := by
  unfold setWordBit
  rw [getD_set_self _ _ _ hp]
  have hx : (mask32 ^^^ (1 <<< bp)).testBit n = true := by
    rw [testBit_maskxor]
    have h1 : decide (n < 32) = true := by simp [hn]
    have h2 : decide (bp = n) = false := by simp; omega
    rw [h1, h2]
    rfl
  have hy : Nat.testBit (1 <<< bp) n = false := by
    rw [Nat.one_shiftLeft, Nat.testBit_two_pow]
    simp
    omega
  cases b with
  | false => simp [Nat.testBit_land, hx]
  | true => simp [Nat.testBit_lor, Nat.testBit_land, hx, hy]

theorem writeBit_step (words : List Nat) (c t : Nat) (b : Bool) :
    writeBit ⟨words, c + 2 * (t / 32), 31 - t % 32⟩ b =
      ⟨setWordBit words (c + 2 * (t / 32)) (31 - t % 32) b,
        c + 2 * ((t + 1) / 32), 31 - (t + 1) % 32⟩ := by
  unfold writeBit
  by_cases h : t % 32 = 31
  · rw [if_pos (by omega : 31 - t % 32 = 0)]
    simp only [EncSt.mk.injEq, true_and]
    exact ⟨by omega, by omega⟩
  · rw [if_neg (by omega : ¬ 31 - t % 32 = 0)]
    simp only [EncSt.mk.injEq, true_and]
    exact ⟨by omega, by omega⟩

/-- The heart of the encoder proof: folding `writeBit` over a bit list,
starting at the cursor position of global channel bit `t`, leaves the word
list length and the other channel's words untouched, preserves the channel
bits before `t`, and stores exactly the folded bits at positions `t`
onward. -/
theorem encode_go (bs : List Bool) (c : Nat) (_hc : c ≤ 1) :
    ∀ (t : Nat) (words : List Nat),
      (∀ s, s < t + bs.length → c + 2 * (s / 32) < words.length) →
      ((bs.foldl writeBit ⟨words, c + 2 * (t / 32), 31 - t % 32⟩).words.length
          = words.length) ∧
      (∀ q, q % 2 ≠ c % 2 →
        (bs.foldl writeBit ⟨words, c + 2 * (t / 32), 31 - t % 32⟩).words.getD q 0
          = words.getD q 0) ∧
      (∀ s, s < t →
        chanBit (bs.foldl writeBit ⟨words, c + 2 * (t / 32), 31 - t % 32⟩).words c s
          = chanBit words c s) ∧
      (∀ s, t ≤ s → s < t + bs.length →
        chanBit (bs.foldl writeBit ⟨words, c + 2 * (t / 32), 31 - t % 32⟩).words c s
          = bs.getD (s - t) false) := by
  induction bs with
  | nil =>
    intro t words hsz
    refine ⟨rfl, fun _ _ => rfl, fun _ _ => rfl, ?_⟩
    intro s h1 h2
    simp at h2
    omega
  | cons b bs ih =>
    intro t words hsz
    have hlenc : (b :: bs).length = bs.length + 1 := List.length_cons b bs
    have hp : c + 2 * (t / 32) < words.length := hsz t (by omega)
    rw [List.foldl_cons, writeBit_step]
    have ihall := ih (t + 1) (setWordBit words (c + 2 * (t / 32)) (31 - t % 32) b)
      (by
        intro s hs
        rw [length_setWordBit]
        exact hsz s (by omega))
    obtain ⟨ihlen, ihpar, ihlow, ihrng⟩ := ihall
    refine ⟨?_, ?_, ?_, ?_⟩
    · rw [ihlen, length_setWordBit]
    · intro q hq
      rw [ihpar q hq]
      exact getD_setWordBit_ne _ _ _ _ _ (by omega)
    · intro s hst
      rw [ihlow s (by omega)]
      unfold chanBit
      by_cases hq : c + 2 * (s / 32) = c + 2 * (t / 32)
      · rw [hq]
        exact testBit_setWordBit_other _ _ _ _ _ hp (by omega) (by omega)
      · rw [getD_setWordBit_ne _ _ _ _ _ hq]
    · intro s hts hlt
      rcases Nat.eq_or_lt_of_le hts with heq | hgt
      · rw [← heq, ihlow t (by omega)]
        unfold chanBit
        rw [Nat.sub_self, List.getD_cons_zero]
        exact testBit_setWordBit_self _ _ _ _ hp (by omega)
      · rw [ihrng s (by omega) (by omega)]
        rw [show s - t = (s - (t + 1)) + 1 by omega, List.getD_cons_succ]

/-- `encode_go` read back through `encodeChannel` (one `Flush` channel
round starting at word `c`, bit 31, which is the cursor of global bit 0). -/
theorem encodeChannel_bits (numColors numPixels : Nat) (pixels : List Nat)
    (c : Nat) (words : List Nat) (hc : c ≤ 1)
    (hsz : ∀ s, s < (channelStream numColors numPixels pixels).length →
      c + 2 * (s / 32) < words.length) :
    ((encodeChannel numColors numPixels pixels c words).length = words.length) ∧
    (∀ q, q % 2 ≠ c % 2 →
      (encodeChannel numColors numPixels pixels c words).getD q 0 = words.getD q 0) ∧
    (∀ s, s < (channelStream numColors numPixels pixels).length →
      chanBit (encodeChannel numColors numPixels pixels c words) c s =
        (channelStream numColors numPixels pixels).getD s false) := by
  have h := encode_go (channelStream numColors numPixels pixels) c hc 0 words
    (by intro s hs; exact hsz s (by omega))
  exact ⟨h.1, h.2.1, fun s hs => by
    have := h.2.2.2 s (by omega) (by omega)
    simpa using this⟩

theorem length_symbolBits (sym : Nat) : (symbolBits sym).length = 3 := rfl

theorem length_byteEnc (x : Nat) : (byteEnc x).length = 24 := by
  unfold byteEnc
  rw [length_flatMap_const _ _ 3 (fun y _ => length_symbolBits _)]
  rfl

theorem length_channelStream (numColors numPixels : Nat) (pixels : List Nat) :
    (channelStream numColors numPixels pixels).length =
      numPixels * (numColors * 24) := by
  unfold channelStream
  rw [length_flatMap_const _ _ (numColors * 24) (fun i _ => by
    rw [length_flatMap_const _ _ 24 (fun j _ => length_byteEnc _)]
    simp [List.length_range])]
  simp [List.length_range]

/-- Indexing the channel stream: PWM bit `24*n + 3*k + e` belongs to the
`e`-th bit of the symbol of data bit `7 - k` of pixel-buffer byte `n`. -/
theorem channelStream_getD (numColors numPixels : Nat) (pixels : List Nat)
    (n k e : Nat) (hnc : 0 < numColors) (hn : n < numPixels * numColors)
    (hk : k < 8) (he : e < 3) :
    (channelStream numColors numPixels pixels).getD (24 * n + 3 * k + e) false =
      (symbolBits (if pixels.getD n 0 &&& (1 <<< (7 - k)) ≠ 0 then symbolHigh
        else symbolLow)).getD e false := by
  have hi : n / numColors < numPixels := by
    rw [Nat.div_lt_iff_lt_mul hnc]
    omega
  have hj : n % numColors < numColors := Nat.mod_lt n hnc
  have hij : numColors * (n / numColors) + n % numColors = n := Nat.div_add_mod n numColors
  have hidx : 24 * n + 3 * k + e =
      (numColors * 24) * (n / numColors) + (24 * (n % numColors) + (3 * k + e)) := by
    conv_lhs => rw [← hij]
    ring
  rw [hidx]
  unfold channelStream
  rw [getD_flatMap _ _ (numColors * 24) false 0
    (fun i _ => by
      rw [length_flatMap_const _ _ 24 (fun j _ => length_byteEnc _)]
      simp [List.length_range])
    (n / numColors) _ (by simpa [List.length_range] using hi)
    (by omega)]
  rw [getD_range numPixels (n / numColors) hi]
  rw [getD_flatMap _ _ 24 false 0 (fun j _ => length_byteEnc _)
    (n % numColors) (3 * k + e) (by simpa [List.length_range] using hj) (by omega)]
  rw [getD_range numColors (n % numColors) hj]
  rw [show n / numColors * numColors + n % numColors = n by
    rw [Nat.mul_comm]; exact hij]
  unfold byteEnc
  rw [getD_flatMap _ _ 3 false 0 (fun j _ => length_symbolBits _) k e
    (by simpa [List.length_range] using hk) he]
  rw [getD_range 8 k hk]

set_option maxRecDepth 8192 in
/-- Helper for claim C1: recombining a byte from its 8 decoded data bits,
most significant first, recovers the byte. -/
theorem byte_reconstruct : ∀ x, x < 256 →
    (cond (decide (x &&& (1 <<< 7) ≠ 0)) 128 0 +
     cond (decide (x &&& (1 <<< 6) ≠ 0)) 64 0 +
     cond (decide (x &&& (1 <<< 5) ≠ 0)) 32 0 +
     cond (decide (x &&& (1 <<< 4) ≠ 0)) 16 0 +
     cond (decide (x &&& (1 <<< 3) ≠ 0)) 8 0 +
     cond (decide (x &&& (1 <<< 2) ≠ 0)) 4 0 +
     cond (decide (x &&& (1 <<< 1) ≠ 0)) 2 0 +
     cond (decide (x &&& (1 <<< 0) ≠ 0)) 1 0) = x := by
  decide

/-- The full decoder correctness statement, shared by claims C1 and C2:
after a successful `Flush`, decoding channel 0 of the symbol buffer
reproduces every pixel-buffer byte in storage order. -/
theorem flush_decodeByteAt (ws : WS281x)
    (hpix : ws.pixels.length = ws.numPixels * ws.numColors)
    (hbyte : ∀ x ∈ ws.pixels, x < 256)
    (hwait : ws.rp.waitErr = none)
    (hlen : 2 * ((24 * ws.pixels.length + 31) / 32) ≤ ws.pixDMAUint.length)
    (n : Nat) (hn : n < ws.pixels.length) :
    decodeByteAt ws.Flush.1.pixDMAUint n = some (ws.pixels.getD n 0) := by
  have hnc : 0 < ws.numColors := by
    rcases Nat.eq_zero_or_pos ws.numColors with h | h
    · rw [h, Nat.mul_zero] at hpix
      omega
    · exact h
  have hsl : (channelStream ws.numColors ws.numPixels ws.pixels).length =
      24 * ws.pixels.length := by
    rw [length_channelStream, hpix]
    ring
  have hflush : ws.Flush.1.pixDMAUint =
      encodeChannel ws.numColors ws.numPixels ws.pixels 1
        (encodeChannel ws.numColors ws.numPixels ws.pixels 0 ws.pixDMAUint) := by
    simp [WS281x.Flush, hwait]
  have h0 := encodeChannel_bits ws.numColors ws.numPixels ws.pixels 0 ws.pixDMAUint
    (by omega) (by intro s hs; rw [hsl] at hs; omega)
  have h1 := encodeChannel_bits ws.numColors ws.numPixels ws.pixels 1
    (encodeChannel ws.numColors ws.numPixels ws.pixels 0 ws.pixDMAUint)
    (by omega) (by intro s hs; rw [h0.1]; rw [hsl] at hs; omega)
  have hbits : ∀ s, s < 24 * ws.pixels.length →
      chanBit ws.Flush.1.pixDMAUint 0 s =
        (channelStream ws.numColors ws.numPixels ws.pixels).getD s false := by
    intro s hs
    rw [hflush]
    unfold chanBit
    rw [h1.2.1 (0 + 2 * (s / 32)) (by omega)]
    have hchan := h0.2.2 s (by rw [hsl]; exact hs)
    unfold chanBit at hchan
    exact hchan
  have hnn : n < ws.numPixels * ws.numColors := by
    rw [← hpix]
    exact hn
  have hbit : ∀ k, k < 8 →
      decodeBit ws.Flush.1.pixDMAUint (8 * n + k) =
        some (decide (ws.pixels.getD n 0 &&& (1 <<< (7 - k)) ≠ 0)) := by
    intro k hk
    unfold decodeBit
    have hb0 : chanBit ws.Flush.1.pixDMAUint 0 (3 * (8 * n + k)) =
        (symbolBits (if ws.pixels.getD n 0 &&& (1 <<< (7 - k)) ≠ 0 then symbolHigh
          else symbolLow)).getD 0 false := by
      rw [hbits (3 * (8 * n + k)) (by omega),
        show 3 * (8 * n + k) = 24 * n + 3 * k + 0 by ring]
      exact channelStream_getD _ _ _ n k 0 hnc hnn hk (by omega)
    have hb1 : chanBit ws.Flush.1.pixDMAUint 0 (3 * (8 * n + k) + 1) =
        (symbolBits (if ws.pixels.getD n 0 &&& (1 <<< (7 - k)) ≠ 0 then symbolHigh
          else symbolLow)).getD 1 false := by
      rw [hbits (3 * (8 * n + k) + 1) (by omega),
        show 3 * (8 * n + k) + 1 = 24 * n + 3 * k + 1 by ring]
      exact channelStream_getD _ _ _ n k 1 hnc hnn hk (by omega)
    have hb2 : chanBit ws.Flush.1.pixDMAUint 0 (3 * (8 * n + k) + 2) =
        (symbolBits (if ws.pixels.getD n 0 &&& (1 <<< (7 - k)) ≠ 0 then symbolHigh
          else symbolLow)).getD 2 false := by
      rw [hbits (3 * (8 * n + k) + 2) (by omega),
        show 3 * (8 * n + k) + 2 = 24 * n + 3 * k + 2 by ring]
      exact channelStream_getD _ _ _ n k 2 hnc hnn hk (by omega)
    rw [hb0, hb1, hb2]
    by_cases hc : ws.pixels.getD n 0 &&& (1 <<< (7 - k)) ≠ 0
    · rw [if_pos hc, decide_eq_true hc]
      rfl
    · rw [if_neg hc, decide_eq_false hc]
      rfl
  have hx : ws.pixels.getD n 0 < 256 := hbyte _ (getD_mem _ _ hn)
  have hb0 : decodeBit ws.Flush.1.pixDMAUint (8 * n) =
      some (decide (ws.pixels.getD n 0 &&& (1 <<< 7) ≠ 0)) := by
    simpa using hbit 0 (by omega)
  have hb1 : decodeBit ws.Flush.1.pixDMAUint (8 * n + 1) =
      some (decide (ws.pixels.getD n 0 &&& (1 <<< 6) ≠ 0)) := by
    simpa using hbit 1 (by omega)
  have hb2 : decodeBit ws.Flush.1.pixDMAUint (8 * n + 2) =
      some (decide (ws.pixels.getD n 0 &&& (1 <<< 5) ≠ 0)) := by
    simpa using hbit 2 (by omega)
  have hb3 : decodeBit ws.Flush.1.pixDMAUint (8 * n + 3) =
      some (decide (ws.pixels.getD n 0 &&& (1 <<< 4) ≠ 0)) := by
    simpa using hbit 3 (by omega)
  have hb4 : decodeBit ws.Flush.1.pixDMAUint (8 * n + 4) =
      some (decide (ws.pixels.getD n 0 &&& (1 <<< 3) ≠ 0)) := by
    simpa using hbit 4 (by omega)
  have hb5 : decodeBit ws.Flush.1.pixDMAUint (8 * n + 5) =
      some (decide (ws.pixels.getD n 0 &&& (1 <<< 2) ≠ 0)) := by
    simpa using hbit 5 (by omega)
  have hb6 : decodeBit ws.Flush.1.pixDMAUint (8 * n + 6) =
      some (decide (ws.pixels.getD n 0 &&& (1 <<< 1) ≠ 0)) := by
    simpa using hbit 6 (by omega)
  have hb7 : decodeBit ws.Flush.1.pixDMAUint (8 * n + 7) =
      some (decide (ws.pixels.getD n 0 &&& (1 <<< 0) ≠ 0)) := by
    simpa using hbit 7 (by omega)
  unfold decodeByteAt
  rw [hb0, hb1, hb2, hb3, hb4, hb5, hb6, hb7]
  simp only [Option.some_bind]
  exact congrArg some (byte_reconstruct _ hx)

/-- Claim C1: symbol-encoding round trip.  For any WS281x driver state
whose pixel buffer holds bytes (the construction invariant
`len = numPixels * numColors`, byte-valued entries, and a symbol buffer at
least as large as `NewWS281x` allocates), after a successful `Flush`,
decoding channel 0 of the symbol buffer — even-indexed words, bits 31 down
to 0, consecutive 3-bit groups, `0b110` a set bit and `0b100` a clear bit,
most-significant data bit first — reproduces every pixel-buffer byte in
storage order. -/
theorem flush_symbol_roundtrip (ws : WS281x)
    (hpix : ws.pixels.length = ws.numPixels * ws.numColors)
    (hbyte : ∀ x ∈ ws.pixels, x < 256)
    (hwait : ws.rp.waitErr = none)
    (hlen : 2 * ((24 * ws.pixels.length + 31) / 32) ≤ ws.pixDMAUint.length)
    (n : Nat) (hn : n < ws.pixels.length) :
    decodeByteAt ws.Flush.1.pixDMAUint n = some (ws.pixels.getD n 0) :=
  flush_decodeByteAt ws hpix hbyte hwait hlen n hn

/-- Claim C1 witness: a 1-pixel 3-color driver with pixel bytes
`[1, 2, 3]` and a 6-word symbol buffer; after `Flush`, decoded byte 1 of
channel 0 is 2. -/
theorem flush_symbol_roundtrip_witness :
    decodeByteAt
      (WS281x.mk (List.replicate 6 0) ⟨none, false⟩ [1, 2, 3] 1 3 0 1 2
        (-1)).Flush.1.pixDMAUint 1 = some 2 :=
  flush_symbol_roundtrip
    (WS281x.mk (List.replicate 6 0) ⟨none, false⟩ [1, 2, 3] 1 3 0 1 2 (-1))
    rfl (by decide) rfl (by decide) 1 (by decide)

/-- Claim C2: in the end-to-end scenario (10 pixels, RGB model, GRB order,
frequency 800000, pixel 0 set to RGB (255, 0, 0)), `Flush` succeeds and the
first 72 PWM bits of channel 0 (3 bits per data bit, i.e. decoded bytes 0,
1 and 2) decode to the byte sequence 0x00, 0xFF, 0x00 — green, red, blue
in storage order. -/
theorem end_to_end_grb :
    scenarioWS.Flush.2 = none ∧
    decodeByteAt scenarioWS.Flush.1.pixDMAUint 0 = some 0x00 ∧
    decodeByteAt scenarioWS.Flush.1.pixDMAUint 1 = some 0xFF ∧
    decodeByteAt scenarioWS.Flush.1.pixDMAUint 2 = some 0x00 := by
  refine ⟨rfl, ?_, ?_, ?_⟩
  · exact (flush_decodeByteAt scenarioWS (by decide) (by decide) rfl (by decide)
      0 (by decide)).trans (by decide)
  · exact (flush_decodeByteAt scenarioWS (by decide) (by decide) rfl (by decide)
      1 (by decide)).trans (by decide)
  · exact (flush_decodeByteAt scenarioWS (by decide) (by decide) rfl (by decide)
      2 (by decide)).trans (by decide)

end Ledctl
